import Mathlib

/-!
# Verification of the SRT subtitle validator and fixer

Shallow embedding of the core of the `validate_srt_script` repository:
the `validator` package (`models.py`, `rules.py`, `fixer.py`) and, where a
claim refers to it, the line-length check of the legacy monolith
`validate_srt.py`.

Modelling conventions:

* Time offsets (Python `datetime.timedelta` values produced by the `srt`
  library) are integer milliseconds (`Int`).  SRT timestamps have
  millisecond resolution and the fixer only adds whole milliseconds, so the
  float `duration.total_seconds() * 1000` computed by the rule engine is the
  exact integer `end - start`.
* `srt.parse` / `srt.compose` are external collaborators of the core; the
  parse outcome is passed to `validate_srt_content` as an explicit
  `Except String (List Subtitle)` parameter.
* Python's `\d` and `str.lower` are modelled on ASCII, and `str.strip` /
  `\s` on Python's whitespace character set.
* `models.py`'s `ValidationError` NamedTuple has no `severity` field, yet
  `rules.py` passes `severity="warning"` when a content line exceeds the
  maximum length; at run time that constructor call raises `TypeError`.
  Fallible code is embedded with `Except`: that call site is the only
  `Except.error` of the rule engine.
-/

namespace SrtValidator

/-! ## Python string primitives -/

/-- The characters Python's `str.strip()` (and `\s` on `str` patterns)
treats as whitespace. -/
def pyIsSpace (c : Char) : Bool :=
  c ∈ [' ', '\t', '\n', '\r', '\x0b', '\x0c',
       '\x1c', '\x1d', '\x1e', '\x1f', '\x85', '\xa0',
       ' ', ' ', ' ', ' ', ' ', ' ', ' ',
       ' ', ' ', ' ', ' ', ' ',
       ' ', ' ', ' ', ' ', '　']

/-- Python `str.strip()` on a character list: drop whitespace from both
ends. -/
def pyStripList (l : List Char) : List Char :=
  (l.dropWhile pyIsSpace).rdropWhile pyIsSpace

/-- Python `str.strip()`. -/
def pyStrip (s : String) : String :=
  String.mk (pyStripList s.toList)

/-- The line terminators recognized by Python `str.splitlines()`. -/
def pyIsLineBreak (c : Char) : Bool :=
  c ∈ ['\n', '\r', '\x0b', '\x0c', '\x1c', '\x1d', '\x1e', '\x85',
       '\u2028', '\u2029']

/-- Python `str.splitlines()` on a character list.  `acc` is the current
line accumulated in reverse.  `"\r\n"` counts as a single line break. -/
def pySplitlinesAux : List Char → List Char → List (List Char)
  | [], acc => if acc.isEmpty then [] else [acc.reverse]
  | '\r' :: '\n' :: rest, acc => acc.reverse :: pySplitlinesAux rest []
  | c :: rest, acc =>
    if pyIsLineBreak c then acc.reverse :: pySplitlinesAux rest []
    else pySplitlinesAux rest (c :: acc)

/-- Python `content.splitlines()`. -/
def pySplitlines (s : String) : List String :=
  (pySplitlinesAux s.toList []).map String.mk

/-- Python `stripped.split("\n")` (explicit separator: empty pieces are
kept, and the result always has at least one element). -/
def pySplitNLAux : List Char → List Char → List String
  | [], acc => [String.mk acc.reverse]
  | '\n' :: rest, acc => String.mk acc.reverse :: pySplitNLAux rest []
  | c :: rest, acc => pySplitNLAux rest (c :: acc)

/-- Python `s.split("\n")`. -/
def pySplitNL (s : String) : List String :=
  pySplitNLAux s.toList []

/-- Python `s[:n]` (slicing counts code points). -/
def pyTake (s : String) (n : Nat) : String :=
  String.mk (s.toList.take n)

/-- Python `str.lower()` (ASCII). -/
def pyLower (s : String) : String :=
  String.mk (s.toList.map Char.toLower)

/-- `re.match(r"^\d+$", stripped)`: a non-empty all-digit line. -/
def isIndexLine (s : String) : Bool :=
  !s.toList.isEmpty && s.toList.all Char.isDigit

/-- Python `int()` on a non-empty digit string. -/
def digitsToInt (s : String) : Int :=
  s.toList.foldl (fun acc c => acc * 10 + ((c.toNat - '0'.toNat : Nat) : Int)) 0

/-- Python `"-->" in s` (substring containment). -/
def containsSub (needle : List Char) : List Char → Bool
  | [] => needle.isEmpty
  | c :: rest => needle.isPrefixOf (c :: rest) || containsSub needle rest

/-- `"-->" in s`. -/
def hasArrow (s : String) : Bool :=
  containsSub "-->".toList s.toList

/-- Python `haystack.count(needle)` for non-empty `needle`: non-overlapping
occurrences, scanning from the left.  `fuel` starts at the haystack length
and never runs out. -/
def countOccurGo (needle : List Char) : Nat → List Char → Nat
  | 0, _ => 0
  | _, [] => 0
  | fuel + 1, c :: rest =>
    if needle.isPrefixOf (c :: rest) then
      1 + countOccurGo needle fuel ((c :: rest).drop needle.length)
    else countOccurGo needle fuel rest

/-- Python `haystack.count(needle)`. -/
def countOccur (needle hay : List Char) : Nat :=
  countOccurGo needle hay.length hay

/-- `re.sub(r"<[^>]+>", "", line)`: drop every `<...>` span with at least
one character between the brackets; an unmatched `<` is kept and scanning
resumes at the next character.  `fuel` starts at the line length and never
runs out. -/
def stripTagsGo : Nat → List Char → List Char
  | 0, l => l
  | _, [] => []
  | fuel + 1, c :: rest =>
    if c = '<' then
      match rest.dropWhile (fun x => x ≠ '>') with
      | '>' :: rest' =>
        if (rest.takeWhile (fun x => x ≠ '>')).length ≥ 1 then
          stripTagsGo fuel rest'
        else c :: stripTagsGo fuel rest
      | _ => c :: stripTagsGo fuel rest
    else c :: stripTagsGo fuel rest

/-- `re.sub(r"<[^>]+>", "", line)`. -/
def stripTags (l : List Char) : List Char :=
  stripTagsGo l.length l

/-- One `DD:DD:DD,DDD` timestamp, exactly twelve characters. -/
def isTimestampChunk : List Char → Bool
  | [a, b, c, d, e, f, g, h, i, j, k, l] =>
    a.isDigit && b.isDigit && c = ':' && d.isDigit && e.isDigit && f = ':' &&
    g.isDigit && h.isDigit && i = ',' && j.isDigit && k.isDigit && l.isDigit
  | _ => false

/-- The strict timecode grammar of `rules.py`:
`^\d{2}:\d{2}:\d{2},\d{3}\s+-->\s+\d{2}:\d{2}:\d{2},\d{3}$`. -/
def matchesTimecodePattern (s : String) : Bool :=
  let l := s.toList
  isTimestampChunk (l.take 12) &&
  (let r := l.drop 12
   let r1 := r.dropWhile pyIsSpace
   decide ((r.takeWhile pyIsSpace).length ≥ 1) &&
   decide (r1.take 3 = ['-', '-', '>']) &&
   (let r2 := r1.drop 3
    let r3 := r2.dropWhile pyIsSpace
    decide ((r2.takeWhile pyIsSpace).length ≥ 1) && isTimestampChunk r3))

/-- Zero-padded two-digit rendering of a component of `str(timedelta)`. -/
def pad2 (n : Int) : String :=
  if n < 10 then "0" ++ toString n else toString n

/-- Zero-padded six-digit microsecond rendering. -/
def pad6 (n : Int) : String :=
  let s := toString n
  String.mk (List.replicate (6 - s.length) '0') ++ s

/-- Python `str(timedelta)` for a millisecond-resolution offset:
`[D day[s], ]H:MM:SS[.ffffff]` with floor division into days. -/
def pyTimedeltaStr (ms : Int) : String :=
  let days := Int.fdiv ms 86400000
  let rem := ms - days * 86400000
  let hours := Int.fdiv rem 3600000
  let rem2 := rem - hours * 3600000
  let minutes := Int.fdiv rem2 60000
  let rem3 := rem2 - minutes * 60000
  let seconds := Int.fdiv rem3 1000
  let msec := rem3 - seconds * 1000
  let base := toString hours ++ ":" ++ pad2 minutes ++ ":" ++ pad2 seconds
  let withMicro := if msec ≠ 0 then base ++ "." ++ pad6 (msec * 1000) else base
  if days ≠ 0 then
    toString days ++ " day" ++ (if days = 1 ∨ days = -1 then "" else "s") ++
      ", " ++ withMicro
  else withMicro

/-! ## Data model -/

/-- `models.py`'s `ValidationError` NamedTuple.  Note: it has **no**
`severity` field. -/
structure ValidationError where
  file_path : String
  subtitle_index : Option Int
  line_number : Option Nat
  error_type : String
  message : String
  content : Option String := none
deriving DecidableEq, Repr

/-- An `srt.Subtitle` record: index, start/end offsets (milliseconds) and
content text. -/
structure Subtitle where
  index : Int
  start : Int
  «end» : Int
  content : String
deriving DecidableEq, Repr

/-! ## Fixer (`fixer.py`) -/

/-- `if name not in fixes_applied: fixes_applied.append(name)`. -/
def addFix (fixes : List String) (name : String) : List String :=
  if name ∈ fixes then fixes else fixes ++ [name]

/-- `re.sub(r"\r", "", content)`. -/
def removeCR (l : List Char) : List Char :=
  l.filter (fun c => c ≠ '\r')

/-- Emit a run of `n` pending newlines, collapsed to two if `n ≥ 3`. -/
def emitNLRun (n : Nat) : List Char :=
  if 3 ≤ n then ['\n', '\n'] else List.replicate n '\n'

/-- `re.sub(r"\n{3,}", "\n\n", content)`: each maximal run of three or more
newlines becomes exactly two.  `n` counts the newlines of the current run. -/
def collapseNLAux : List Char → Nat → List Char
  | [], n => emitNLRun n
  | c :: rest, n =>
    if c = '\n' then collapseNLAux rest (n + 1)
    else emitNLRun n ++ (c :: collapseNLAux rest 0)

/-- `re.sub(r"\n{3,}", "\n\n", content)`. -/
def collapseNL (l : List Char) : List Char :=
  collapseNLAux l 0

/-- The fixer's text normalization: remove carriage returns, collapse runs
of three or more newlines to two, strip surrounding whitespace. -/
def pyNormalizeContent (s : String) : String :=
  String.mk (pyStripList (collapseNL (removeCR s.toList)))

/-- The per-record loop of `fix_srt_subtitles`: timing repair against
`last_end_time`, text normalization, and detection of out-of-sequence
indices.  `i` is the 0-based position, `fixes` the categories so far. -/
def fixLoop : List Subtitle → Int → Nat → List String →
    (List Subtitle × List String × Bool)
  | [], _, _, fixes => ([], fixes, false)
  | sub :: rest, last_end_time, i, fixes =>
    let start1 := if sub.start < last_end_time then last_end_time + 1 else sub.start
    let fixes1 := if sub.start < last_end_time then addFix fixes "Timecode Fix" else fixes
    let end1 := if sub.«end» ≤ start1 then start1 + 1 else sub.«end»
    let fixes2 := if sub.«end» ≤ start1 then addFix fixes1 "Timecode Fix" else fixes1
    let new_content := pyNormalizeContent sub.content
    let content1 := if new_content ≠ sub.content then new_content else sub.content
    let fixes3 := if new_content ≠ sub.content then addFix fixes2 "Formatting Fix" else fixes2
    let needs_here := sub.index ≠ (i : Int) + 1
    let rec_out := fixLoop rest end1 (i + 1) fixes3
    (⟨sub.index, start1, end1, content1⟩ :: rec_out.1, rec_out.2.1,
      needs_here || rec_out.2.2)

/-- Renumber every record with its 1-based position (`sub.index = i + 1`). -/
def reindexFrom (n : Nat) : List Subtitle → List Subtitle
  | [] => []
  | s :: rest => { s with index := (n : Int) + 1 } :: reindexFrom (n + 1) rest

/-- `fix_srt_subtitles` (`fixer.py`): single forward pass of timing repair
and text normalization, then a global renumber if any record's index was
out of sequence. -/
def fix_srt_subtitles (subtitles : List Subtitle) : List Subtitle × List String :=
  let r := fixLoop subtitles 0 0 []
  if r.2.2 then (reindexFrom 0 r.1, addFix r.2.1 "Numbering Fix")
  else (r.1, r.2.1)

/-! ## Claim C3: the spec's two-record fixture -/

/-- `srt.parse` applied to the spec fixture
`2\n00:00:01,000 --> 00:00:03,500\n  First subtitle.  \n\n1\n00:00:03,000 --> 00:00:05,000\n   Overlapping subtitle.\n`
yields these two records (the external parser keeps the surrounding
whitespace of each content block). -/
def fixtureParsed : List Subtitle :=
  [⟨2, 1000, 3500, "  First subtitle.  "⟩,
   ⟨1, 3000, 5000, "   Overlapping subtitle."⟩]

/-- C3: on the spec's two-record fixture, fixing returns record 1 at
1.000s–3.500s with content "First subtitle.", record 2 starting at 3.501s
(previous end plus 1 ms) with content "Overlapping subtitle.", and the set
of fix categories {Timecode Fix, Formatting Fix, Numbering Fix}. -/
theorem fix_fixture_c3 :
    fix_srt_subtitles fixtureParsed =
      ([⟨1, 1000, 3500, "First subtitle."⟩,
        ⟨2, 3501, 5000, "Overlapping subtitle."⟩],
       ["Formatting Fix", "Timecode Fix", "Numbering Fix"]) ∧
    ∀ f, f ∈ (fix_srt_subtitles fixtureParsed).2 ↔
      (f = "Timecode Fix" ∨ f = "Formatting Fix" ∨ f = "Numbering Fix") := by
  constructor
  · decide
  · intro f
    constructor
    · intro hf
      have : fix_srt_subtitles fixtureParsed =
          ([⟨1, 1000, 3500, "First subtitle."⟩,
            ⟨2, 3501, 5000, "Overlapping subtitle."⟩],
           ["Formatting Fix", "Timecode Fix", "Numbering Fix"]) := by decide
      rw [this] at hf
      simp only [List.mem_cons, List.not_mem_nil, or_false] at hf
      tauto
    · intro hf
      have : fix_srt_subtitles fixtureParsed =
          ([⟨1, 1000, 3500, "First subtitle."⟩,
            ⟨2, 3501, 5000, "Overlapping subtitle."⟩],
           ["Formatting Fix", "Timecode Fix", "Numbering Fix"]) := by decide
      rw [this]
      simp only [List.mem_cons, List.not_mem_nil, or_false]
      tauto

/-! ## Block pre-scanner (`rules.py`, pre-parsing checks) -/

/-- The mutable state of the pre-parsing loop of `validate_srt_content`. -/
structure ScanState where
  errors : List ValidationError
  found_subs : Bool
  in_subtitle_block : Bool
  current_index : Option Int
  current_timecode_line : Option String
deriving DecidableEq, Repr

/-- The state before the first line. -/
def initScan : ScanState := ⟨[], false, false, none, none⟩

/-- The diagnostic emitted for a timecode line that fails the strict
grammar; `line` is the raw (unstripped) source line. -/
def mkTimecodeFormatError (file_path : String) (idx : Option Int)
    (line_num : Nat) (line : String) : ValidationError :=
  ⟨file_path, idx, some line_num, "Timecode Format Error",
   "Timecode line does not match HH:MM:SS,ms --> HH:MM:SS,ms format.", some line⟩

/-- One iteration of the pre-parsing loop: the `if`/`elif` chain over a
single source line. -/
def scanLine (file_path : String) (st : ScanState) (line_num : Nat)
    (line : String) : ScanState :=
  let stripped := pyStrip line
  if isIndexLine stripped && !st.in_subtitle_block then
    { st with in_subtitle_block := true,
              current_index := some (digitsToInt stripped),
              current_timecode_line := none,
              found_subs := true }
  else if hasArrow stripped && st.in_subtitle_block &&
      st.current_timecode_line.isNone then
    let st' := { st with current_timecode_line := some stripped }
    if !matchesTimecodePattern stripped then
      { st' with errors := st'.errors ++
          [mkTimecodeFormatError file_path st.current_index line_num line] }
    else st'
  else if stripped.toList.isEmpty && st.in_subtitle_block then
    { st with in_subtitle_block := false, current_index := none,
              current_timecode_line := none }
  else st

/-- The pre-parsing loop over the remaining lines; `n` is the 1-based
number of the next line. -/
def preScanAux (file_path : String) : List String → Nat → ScanState → ScanState
  | [], _, st => st
  | line :: rest, n, st => preScanAux file_path rest (n + 1) (scanLine file_path st n line)

/-- The complete pre-scan of a file's lines. -/
def preScan (file_path : String) (lines : List String) : ScanState :=
  preScanAux file_path lines 1 initScan

/-- Whether processing `line` in state `st` appends a Timecode Format
Error: the line is the block's first arrow-bearing line and fails the
strict grammar. -/
def scanEmitsError (st : ScanState) (line : String) : Bool :=
  hasArrow (pyStrip line) && st.in_subtitle_block &&
    st.current_timecode_line.isNone && !matchesTimecodePattern (pyStrip line)

/-- The pre-scan's diagnostics, stated declaratively: exactly one Timecode
Format Error per line that triggers `scanEmitsError` in the state it is
scanned in, in line order. -/
def scanErrorsSpec (file_path : String) : List String → Nat → ScanState → List ValidationError
  | [], _, _ => []
  | line :: rest, n, st =>
    (if scanEmitsError st line then
       [mkTimecodeFormatError file_path st.current_index n line]
     else []) ++
    scanErrorsSpec file_path rest (n + 1) (scanLine file_path st n line)

/-! ## Line map (`rules.py`, `subtitle_line_map` loop) -/

/-- `dict` assignment `m[k] = v` on an association list. -/
def mapInsert (m : List (Int × Nat)) (k : Int) (v : Nat) : List (Int × Nat) :=
  if m.any (fun p => p.1 == k) then
    m.map (fun p => if p.1 == k then (k, v) else p)
  else m ++ [(k, v)]

/-- `dict.get(k, None)`. -/
def mapLookup (m : List (Int × Nat)) (k : Int) : Option Nat :=
  (m.find? (fun p => p.1 == k)).map Prod.snd

/-- The second line pass of `validate_srt_content`, building the map from
subtitle index to the 1-based line of its index line.  On a stripped line
the pattern `^\d+\s*$` is `isIndexLine`; the arrow test is on the raw
line.  `cur_str`/`cur_line` mirror `current_sub_index_str` and
`current_sub_start_line`. -/
def buildLineMapAux : List String → Nat → String → Nat → List (Int × Nat) → List (Int × Nat)
  | [], _, cur_str, cur_line, m =>
    if cur_str.toList.isEmpty then m else mapInsert m (digitsToInt cur_str) cur_line
  | line :: rest, n, cur_str, cur_line, m =>
    let stripped := pyStrip line
    if isIndexLine stripped then
      let m' := if cur_str.toList.isEmpty then m
                else mapInsert m (digitsToInt cur_str) cur_line
      buildLineMapAux rest (n + 1) stripped n m'
    else if hasArrow line && !cur_str.toList.isEmpty then
      buildLineMapAux rest (n + 1) "" cur_line (mapInsert m (digitsToInt cur_str) cur_line)
    else buildLineMapAux rest (n + 1) cur_str cur_line m

/-- `subtitle_line_map` for a file's lines. -/
def buildLineMap (lines : List String) : List (Int × Nat) :=
  buildLineMapAux lines 1 "" 0 []

/-! ## Rule engine (`rules.py`, per-record loop) -/

/-- The Index Error diagnostic: attributed to the *found* index, for the
line map lookup as well as for `subtitle_index`. -/
def mkIndexError (file_path : String) (start_line : Option Nat)
    (sub : Subtitle) (expected : Int) : ValidationError :=
  ⟨file_path, some sub.index, start_line, "Index Error",
   "Expected index " ++ toString expected ++ ", found " ++ toString sub.index ++ ".",
   none⟩

/-- The per-line maximum-characters check (5b).  The diagnostic it wants
to build passes `severity="warning"` to `models.py`'s `ValidationError`,
which has no such field, so at the first offending line Python raises
`TypeError` (losing every diagnostic accumulated so far); `i` is the
0-based offset that the intended `start_line + i + 2` attribution would
use. -/
def lineLengthCheck (max_chars_per_line : Int) : List String → Nat → Except String Unit
  | [], _ => .ok ()
  | line :: rest, i =>
    if ((stripTags line.toList).length : Int) > max_chars_per_line then
      .error "TypeError: ValidationError got an unexpected keyword argument severity"
    else lineLengthCheck max_chars_per_line rest (i + 1)

/-- Check 5 of the rule loop: empty-content check, which suppresses the
line-count and line-length checks, else the line-count check followed by
the per-line length check. -/
def contentChecks (file_path : String) (sub : Subtitle) (start_line : Option Nat)
    (max_chars_per_line max_lines_per_sub : Int) : Except String (List ValidationError) :=
  let stripped := pyStrip sub.content
  if stripped.toList.isEmpty then
    .ok [⟨file_path, some sub.index, start_line, "Content Error",
          "Subtitle content is empty.", none⟩]
  else
    let lines := pySplitNL stripped
    let maxLineErrs :=
      if (lines.length : Int) > max_lines_per_sub then
        [⟨file_path, some sub.index, start_line, "Format Error",
          "Exceeds maximum lines per subtitle (" ++ toString lines.length ++
            " > " ++ toString max_lines_per_sub ++ ").", some sub.content⟩]
      else []
    match lineLengthCheck max_chars_per_line lines 0 with
    | .error e => .error e
    | .ok _ => .ok maxLineErrs

/-- Check 6: the heuristic open/close tag count over the fixed tag set,
one Format Error per unbalanced tag. -/
def tagCheckErrors (file_path : String) (sub : Subtitle)
    (start_line : Option Nat) : List ValidationError :=
  let lower := pyLower sub.content
  ["i", "b", "u", "font"].filterMap (fun tag =>
    let open_count := countOccur ("<" ++ tag ++ ">").toList lower.toList +
      countOccur ("<" ++ tag ++ " ").toList lower.toList
    let close_count := countOccur ("</" ++ tag ++ ">").toList lower.toList
    if open_count ≠ close_count then
      some ⟨file_path, some sub.index, start_line, "Format Error",
        "Potential unclosed or mismatched \x27<" ++ tag ++ ">\x27 tag found.",
        some sub.content⟩
    else none)

/-- One iteration of the per-record rule loop: index continuity, ordering,
overlap, duration bounds, content checks, tag checks — in source order. -/
def checkRecord (file_path : String) (lineMap : Int → Option Nat)
    (max_chars_per_line max_lines_per_sub min_duration_ms max_duration_ms : Int)
    (last_end_time expected_index : Int) (sub : Subtitle) :
    Except String (List ValidationError) :=
  let start_line := lineMap sub.index
  let idxErrs :=
    if sub.index ≠ expected_index then
      [mkIndexError file_path start_line sub expected_index]
    else []
  let orderErrs :=
    if sub.«end» ≤ sub.start then
      [⟨file_path, some sub.index, start_line, "Timecode Error",
        "Start time (" ++ pyTimedeltaStr sub.start ++ ") is not before end time (" ++
          pyTimedeltaStr sub.«end» ++ ").", none⟩]
    else []
  let overlapErrs :=
    if sub.start < last_end_time then
      [⟨file_path, some sub.index, start_line, "Timecode Error",
        "Overlaps with previous subtitle (Ends: " ++ pyTimedeltaStr last_end_time ++
          ", Starts: " ++ pyTimedeltaStr sub.start ++ ").", none⟩]
    else []
  let duration_ms := sub.«end» - sub.start
  let durErrs :=
    (if duration_ms < min_duration_ms then
       [⟨file_path, some sub.index, start_line, "Duration Error",
         "Subtitle duration (" ++ toString duration_ms ++ "ms) is less than minimum (" ++
           toString min_duration_ms ++ "ms).", none⟩]
     else []) ++
    (if duration_ms > max_duration_ms then
       [⟨file_path, some sub.index, start_line, "Duration Error",
         "Subtitle duration (" ++ toString duration_ms ++ "ms) is greater than maximum (" ++
           toString max_duration_ms ++ "ms).", none⟩]
     else [])
  match contentChecks file_path sub start_line max_chars_per_line max_lines_per_sub with
  | .error e => .error e
  | .ok contentErrs =>
    let tagErrs := tagCheckErrors file_path sub start_line
    .ok (idxErrs ++ orderErrs ++ overlapErrs ++ durErrs ++ contentErrs ++ tagErrs)

/-- The per-record rule loop: `last_end_time` and `expected_index` update
after every record, unconditionally; `errors` accumulates in detection
order.  A `TypeError` from the length check propagates, discarding the
accumulated diagnostics. -/
def validateRecords (file_path : String) (lineMap : Int → Option Nat)
    (max_chars_per_line max_lines_per_sub min_duration_ms max_duration_ms : Int) :
    List Subtitle → Int → Int → List ValidationError → Except String (List ValidationError)
  | [], _, _, errors => .ok errors
  | sub :: rest, last_end_time, expected_index, errors =>
    match checkRecord file_path lineMap max_chars_per_line max_lines_per_sub
        min_duration_ms max_duration_ms last_end_time expected_index sub with
    | .error e => .error e
    | .ok recErrs =>
      validateRecords file_path lineMap max_chars_per_line max_lines_per_sub
        min_duration_ms max_duration_ms rest sub.«end» (expected_index + 1)
        (errors ++ recErrs)

/-- `validate_srt_content` (`rules.py`).  The external `srt.parse` outcome
is the `parse_result` parameter; `srt`'s exceptions carry no `lineno`
attribute, so the guessed line of a parse failure is 1. -/
def validate_srt_content (file_path content : String)
    (parse_result : Except String (List Subtitle))
    (max_chars_per_line max_lines_per_sub min_duration_ms max_duration_ms : Int) :
    Except String (List ValidationError) :=
  let original_lines := pySplitlines content
  let scan := preScan file_path original_lines
  let errors := scan.errors
  if (pyStrip content).toList.isEmpty then
    .ok (errors ++ [⟨file_path, none, some 1, "Content Error",
      "SRT file is empty or contains only whitespace.", none⟩])
  else if !scan.found_subs then
    .ok (errors ++ [⟨file_path, none, some 1, "Parsing Error",
      "Content seems non-empty but no valid subtitle blocks found.",
      some (pyTake content 100)⟩])
  else if errors.any (fun e => e.error_type == "Timecode Format Error") then
    .ok errors
  else
    match parse_result with
    | .error msg =>
      let line_num_guess : Nat := 1
      let errors :=
        if errors.any (fun e =>
            e.line_number == some line_num_guess &&
            e.error_type == "Timecode Format Error") then errors
        else errors ++ [⟨file_path, none, some line_num_guess, "Parsing Error",
          "SRT parsing failed: " ++ msg, some (pyTake content 500)⟩]
      .ok errors
    | .ok parsed_subs =>
      let errors :=
        if parsed_subs.isEmpty && !(pyStrip content).toList.isEmpty then
          errors ++ [⟨file_path, none, some 1, "Parsing Error",
            "Content seems non-empty but no subtitles parsed.", some content⟩]
        else errors
      let line_map := buildLineMap original_lines
      validateRecords file_path (fun idx => mapLookup line_map idx)
        max_chars_per_line max_lines_per_sub min_duration_ms max_duration_ms
        parsed_subs 0 1 errors

/-! ## Legacy line-length check (`validate_srt.py`, lines 224–228)

The monolith's local `ValidationError` takes no severity keyword and none
is passed, so its line-length check does return diagnostics — attributed
to `start_line + i + 1` (and to `None` when `start_line` is falsy). -/

/-- The legacy per-line maximum-characters loop. -/
def legacyLineLengthErrors (file_path : String) (sub_index : Int)
    (start_line : Option Nat) (max_chars_per_line : Int) :
    List String → Nat → List ValidationError
  | [], _ => []
  | line :: rest, i =>
    (if ((stripTags line.toList).length : Int) > max_chars_per_line then
      [⟨file_path, some sub_index,
        (match start_line with
         | some s => if s = 0 then none else some (s + i + 1)
         | none => none),
        "Format Error",
        "Line exceeds maximum characters (" ++ toString (stripTags line.toList).length ++
          " > " ++ toString max_chars_per_line ++ ").", some line⟩]
    else []) ++
    legacyLineLengthErrors file_path sub_index start_line max_chars_per_line rest (i + 1)

/-! ## Claims C1, C2, C6: the missing `severity` field -/

/-- Equality of embedded run outcomes is decidable. -/
instance {ε α : Type} [DecidableEq ε] [DecidableEq α] : DecidableEq (Except ε α) := fun x y =>
  match x, y with
  | .ok a, .ok b =>
    if h : a = b then isTrue (by rw [h]) else isFalse (fun hc => by cases hc; exact h rfl)
  | .error a, .error b =>
    if h : a = b then isTrue (by rw [h]) else isFalse (fun hc => by cases hc; exact h rfl)
  | .ok _, .error _ => isFalse (fun hc => by cases hc)
  | .error _, .ok _ => isFalse (fun hc => by cases hc)

/-- The content line of the repository's own `too_long_line` test fixture:
72 characters, no markup tags. -/
def longLine : String :=
  "This line is definitely going to be way too long for subtitle standards."

/-- The `too_long_line` SRT fixture. -/
def longLineContent : String :=
  "1\n00:00:01,000 --> 00:00:03,000\n" ++ longLine ++ "\n"

/-- `srt.parse` on `longLineContent`. -/
def longLineParsed : List Subtitle := [⟨1, 1000, 3000, longLine⟩]

/-- C1 (code bug): a record whose single content line exceeds the
maximum-characters threshold after tag stripping does not produce the
claimed warning diagnostic — `rules.py` passes `severity="warning"` to a
`ValidationError` that has no `severity` field, so the rule loop raises
`TypeError` instead of returning any diagnostic. -/
theorem lineLength_severity_raises_c1 :
    validateRecords "long.srt" (fun idx => mapLookup (buildLineMap (pySplitlines longLineContent)) idx)
      42 2 1000 7000 longLineParsed 0 1 [] =
    .error "TypeError: ValidationError got an unexpected keyword argument severity" := by
  decide

/-- C2 (code bug): `validate_srt_content` does not always return a list of
diagnostics — on the repository's own `too_long_line` fixture (with the
default thresholds) the missing `severity` field makes it raise. -/
theorem validate_raises_c2 :
    validate_srt_content "long.srt" longLineContent (.ok longLineParsed) 42 2 1000 7000 =
    .error "TypeError: ValidationError got an unexpected keyword argument severity" := by
  decide

/-- C6 (code bug): the only line-length diagnostics the repository can
actually construct are the legacy monolith's, and those attribute the
offending content line to `start_line + i + 2` minus one — for a record
mapped to line 1 the first content line is attributed to line 2, not the
claimed `1 + 0 + 2 = 3` (the modular `rules.py` path, which does compute
`start_line + i + 2`, raises before constructing the diagnostic). -/
theorem legacy_lineLength_attribution_c6 :
    legacyLineLengthErrors "long.srt" 1 (some 1) 42 [longLine] 0 =
      [⟨"long.srt", some 1, some 2, "Format Error",
        "Line exceeds maximum characters (72 > 42).", some longLine⟩] ∧
    (2 : Nat) ≠ 1 + 0 + 2 := by
  constructor
  · decide
  · decide

/-! ## Claim C4: the fixer's timing invariant -/

/-- `l` is time-ordered after `lastEnd`: every record starts no earlier
than the previous record's end and ends strictly after its own start. -/
def timeOrdered : Int → List Subtitle → Prop
  | _, [] => True
  | lastEnd, s :: rest => lastEnd ≤ s.start ∧ s.start < s.«end» ∧ timeOrdered s.«end» rest

/-- The fixer's per-record pass establishes `timeOrdered` from whatever
`last_end_time` it starts at. -/
theorem fixLoop_timeOrdered (subs : List Subtitle) :
    ∀ (lastEnd : Int) (i : Nat) (fixes : List String),
      timeOrdered lastEnd (fixLoop subs lastEnd i fixes).1 := by
  induction subs with
  | nil => intro lastEnd i fixes; simp [fixLoop, timeOrdered]
  | cons sub rest ih =>
    intro lastEnd i fixes
    simp only [fixLoop, timeOrdered]
    refine ⟨?_, ?_, ih _ _ _⟩
    · split_ifs <;> omega
    · split_ifs <;> omega

/-- Renumbering changes only indices, so it preserves `timeOrdered`. -/
theorem timeOrdered_reindexFrom (l : List Subtitle) :
    ∀ (n : Nat) (e : Int), timeOrdered e (reindexFrom n l) ↔ timeOrdered e l := by
  induction l with
  | nil => intro n e; simp [reindexFrom]
  | cons s rest ih =>
    intro n e
    simp only [reindexFrom, timeOrdered]
    constructor
    · rintro ⟨h1, h2, h3⟩; exact ⟨h1, h2, (ih _ _).mp h3⟩
    · rintro ⟨h1, h2, h3⟩; exact ⟨h1, h2, (ih _ _).mpr h3⟩

/-- In a time-ordered list every record has a strictly positive duration. -/
theorem timeOrdered_mem_lt {l : List Subtitle} :
    ∀ {e : Int}, timeOrdered e l → ∀ s ∈ l, s.start < s.«end» := by
  induction l with
  | nil => intro e _ s hs; cases hs
  | cons t rest ih =>
    intro e h s hs
    rw [List.mem_cons] at hs
    rcases hs with rfl | hs
    · exact h.2.1
    · exact ih h.2.2 s hs

/-- In a time-ordered list each record ends no later than the next one
starts. -/
theorem timeOrdered_get_le {l : List Subtitle} :
    ∀ {e : Int}, timeOrdered e l → ∀ (i : Nat) (h : i + 1 < l.length),
      (l.get ⟨i, Nat.lt_of_succ_lt h⟩).«end» ≤ (l.get ⟨i + 1, h⟩).start := by
  induction l with
  | nil => intro e _ i h; simp at h
  | cons t rest ih =>
    intro e ht i h
    match i with
    | 0 =>
      match rest, ht with
      | u :: rest', ⟨_, _, hu⟩ => exact hu.1
    | i' + 1 =>
      exact ih ht.2.2 i' (Nat.lt_of_succ_lt_succ h)

/-- The fixer's output is time-ordered from zero. -/
theorem fix_srt_subtitles_timeOrdered (subs : List Subtitle) :
    timeOrdered 0 (fix_srt_subtitles subs).1 := by
  simp only [fix_srt_subtitles]
  split
  · exact (timeOrdered_reindexFrom _ _ _).mpr (fixLoop_timeOrdered subs 0 0 [])
  · exact fixLoop_timeOrdered subs 0 0 []

/-- C4: for every input sequence, the fixed sequence has `start < end` on
every record and `end[i] ≤ start[i+1]` on every pair of adjacent records. -/
theorem fix_monotone_c4 (subs : List Subtitle) :
    (∀ s ∈ (fix_srt_subtitles subs).1, s.start < s.«end») ∧
    (∀ (i : Nat) (h : i + 1 < (fix_srt_subtitles subs).1.length),
      ((fix_srt_subtitles subs).1.get ⟨i, Nat.lt_of_succ_lt h⟩).«end» ≤
        ((fix_srt_subtitles subs).1.get ⟨i + 1, h⟩).start) :=
  ⟨timeOrdered_mem_lt (fix_srt_subtitles_timeOrdered subs),
   timeOrdered_get_le (fix_srt_subtitles_timeOrdered subs)⟩

/-- The concrete sequence used to witness C4: a zero-duration record
followed by an overlapping one. -/
def c4Input : List Subtitle := [⟨1, 5, 5, "a"⟩, ⟨2, 0, 9, "b"⟩]

/-- Witness for C4 at `c4Input`: the fixed output is
`[⟨1, 5, 6, "a"⟩, ⟨2, 7, 9, "b"⟩]`. -/
theorem fix_monotone_c4_witness :
    ((⟨1, 5, 6, "a"⟩ : Subtitle).start < (⟨1, 5, 6, "a"⟩ : Subtitle).«end») ∧
    ((fix_srt_subtitles c4Input).1.get ⟨0, by decide⟩).«end» ≤
      ((fix_srt_subtitles c4Input).1.get ⟨1, by decide⟩).start :=
  ⟨(fix_monotone_c4 c4Input).1 ⟨1, 5, 6, "a"⟩ (by decide),
   (fix_monotone_c4 c4Input).2 0 (by decide)⟩

/-! ## Claim C10: a fixed file can still fail validation -/

/-- A record whose start equals its end. -/
def c10Input : List Subtitle := [⟨1, 1000, 1000, "Hi"⟩]

/-- What the fixer makes of it: duration exactly 1 ms. -/
def c10Fixed : Subtitle := ⟨1, 1000, 1001, "Hi"⟩

/-- C10: the fixer turns a zero-duration record into a 1 ms one, so for
any minimum-duration threshold above 1 ms, re-validating the fixed
sequence still reports a Duration Error: a successful fix pass does not
guarantee that validation passes afterwards. -/
theorem fix_then_validate_duration_c10 (min_duration_ms : Int)
    (h : 1 < min_duration_ms) :
    (fix_srt_subtitles c10Input).1 = [c10Fixed] ∧
    c10Fixed.«end» - c10Fixed.start = 1 ∧
    validateRecords "fixed.srt" (fun idx => mapLookup [(1, 1)] idx)
        42 2 min_duration_ms 7000 [c10Fixed] 0 1 [] =
      .ok [⟨"fixed.srt", some 1, some 1, "Duration Error",
        "Subtitle duration (1ms) is less than minimum (" ++
          toString min_duration_ms ++ "ms).", none⟩] ∧
    (⟨"fixed.srt", some 1, some 1, "Duration Error",
      "Subtitle duration (1ms) is less than minimum (" ++
        toString min_duration_ms ++ "ms).", none⟩ : ValidationError).error_type =
      "Duration Error" := by
  refine ⟨by decide, by decide, ?_, rfl⟩
  have hcontent : contentChecks "fixed.srt" ⟨1, 1000, 1001, "Hi"⟩
      (mapLookup [(1, 1)] 1) 42 2 = .ok [] := by decide
  have htag : tagCheckErrors "fixed.srt" ⟨1, 1000, 1001, "Hi"⟩
      (mapLookup [(1, 1)] 1) = [] := by decide
  simp only [validateRecords, checkRecord, c10Fixed, hcontent, htag]
  norm_num
  rw [if_pos h]
  rfl

/-- Witness for C10 at threshold 2000 ms. -/
theorem fix_then_validate_duration_c10_witness :
    (fix_srt_subtitles c10Input).1 = [c10Fixed] ∧
    c10Fixed.«end» - c10Fixed.start = 1 ∧
    validateRecords "fixed.srt" (fun idx => mapLookup [(1, 1)] idx)
        42 2 2000 7000 [c10Fixed] 0 1 [] =
      .ok [⟨"fixed.srt", some 1, some 1, "Duration Error",
        "Subtitle duration (1ms) is less than minimum (" ++
          toString (2000 : Int) ++ "ms).", none⟩] ∧
    (⟨"fixed.srt", some 1, some 1, "Duration Error",
      "Subtitle duration (1ms) is less than minimum (" ++
        toString (2000 : Int) ++ "ms).", none⟩ : ValidationError).error_type =
      "Duration Error" :=
  fix_then_validate_duration_c10 2000 (by decide)

/-! ## Claim C8: index continuity -/

/-- Membership in a conditional singleton forces the condition and the
value. -/
theorem mem_ite_singleton {α : Type} {c : Prop} [Decidable c] {x e : α}
    (h : e ∈ (if c then [x] else [])) : c ∧ e = x := by
  split at h
  · exact ⟨by assumption, by simpa using h⟩
  · exact absurd h (List.not_mem_nil e)

/-- The diagnostics the content checks can return are Content Errors or
Format Errors. -/
theorem contentChecks_types {fp : String} {sub : Subtitle} {sl : Option Nat}
    {mc ml : Int} {c : List ValidationError}
    (h : contentChecks fp sub sl mc ml = .ok c) :
    ∀ e ∈ c, e.error_type = "Content Error" ∨ e.error_type = "Format Error" := by
  intro e he
  simp only [contentChecks] at h
  split at h
  · rw [Except.ok.injEq] at h
    rw [← h] at he
    obtain rfl := by simpa using he
    left; rfl
  · split at h
    · exact Except.noConfusion h
    · rw [Except.ok.injEq] at h
      rw [← h] at he
      obtain ⟨-, rfl⟩ := mem_ite_singleton he
      right; rfl

/-- The diagnostics of the tag check are Format Errors. -/
theorem tagCheckErrors_types (fp : String) (sub : Subtitle) (sl : Option Nat) :
    ∀ e ∈ tagCheckErrors fp sub sl, e.error_type = "Format Error" := by
  intro e he
  simp only [tagCheckErrors] at he
  rw [List.mem_filterMap] at he
  obtain ⟨tag, -, htag⟩ := he
  split at htag
  · injection htag with h
    rw [← h]
  · exact Option.noConfusion htag

/-- A successful `checkRecord` run yields exactly one Index Error — the
one for `expected_index` — when the record's index differs from it, and
none otherwise; the diagnostic uses the *found* index for the line-map
lookup and the reported record index. -/
theorem checkRecord_indexErrors {fp : String} {lm : Int → Option Nat}
    {mc ml mnd mxd le k : Int} {sub : Subtitle} {l : List ValidationError}
    (h : checkRecord fp lm mc ml mnd mxd le k sub = .ok l) :
    (∀ e ∈ l, e.error_type = "Index Error" →
      sub.index ≠ k ∧ e = mkIndexError fp (lm sub.index) sub k) ∧
    (sub.index ≠ k → mkIndexError fp (lm sub.index) sub k ∈ l) := by
  simp only [checkRecord] at h
  cases hcc : contentChecks fp sub (lm sub.index) mc ml with
  | error e0 => rw [hcc] at h; exact Except.noConfusion h
  | ok c =>
    rw [hcc] at h
    rw [Except.ok.injEq] at h
    constructor
    · intro e he htype
      rw [← h] at he
      simp only [List.mem_append] at he
      rcases he with ((((he | he) | he) | (he | he)) | he) | he
      · obtain ⟨hne, rfl⟩ := mem_ite_singleton he
        exact ⟨hne, rfl⟩
      · obtain ⟨-, rfl⟩ := mem_ite_singleton he
        simp at htype
      · obtain ⟨-, rfl⟩ := mem_ite_singleton he
        simp at htype
      · obtain ⟨-, rfl⟩ := mem_ite_singleton he
        simp at htype
      · obtain ⟨-, rfl⟩ := mem_ite_singleton he
        simp at htype
      · rcases contentChecks_types hcc e he with h' | h' <;>
          (rw [h'] at htype; exact absurd htype (by decide))
      · rw [tagCheckErrors_types fp sub (lm sub.index) e he] at htype
        exact absurd htype (by decide)
    · intro hne
      rw [← h]
      simp only [List.mem_append]
      left; left; left; left; left
      rw [if_pos hne]
      exact List.mem_singleton_self _

/-- Accumulated diagnostics only prefix the result of the record loop. -/
theorem validateRecords_acc (fp : String) (lm : Int → Option Nat)
    (mc ml mnd mxd : Int) :
    ∀ (subs : List Subtitle) (le k : Int) (acc : List ValidationError),
      validateRecords fp lm mc ml mnd mxd subs le k acc =
      match validateRecords fp lm mc ml mnd mxd subs le k [] with
      | .error e => .error e
      | .ok t => .ok (acc ++ t) := by
  intro subs
  induction subs with
  | nil => intro le k acc; simp [validateRecords]
  | cons sub rest ih =>
    intro le k acc
    cases hcr : checkRecord fp lm mc ml mnd mxd le k sub with
    | error e0 => simp [validateRecords, hcr]
    | ok r =>
      simp only [validateRecords, hcr]
      rw [ih _ _ (acc ++ r), ih _ _ ([] ++ r)]
      cases validateRecords fp lm mc ml mnd mxd rest sub.«end» (k + 1) [] with
      | error e0 => simp
      | ok t => simp

/-- The Index Error diagnostics of the record loop, characterized against
record positions: the expected index for the record at 0-based position
`p` is `k + p` (`k` the starting expected index), *regardless of earlier
mismatches*. -/
theorem validateRecords_indexChar (fp : String) (lm : Int → Option Nat)
    (mc ml mnd mxd : Int) :
    ∀ (subs : List Subtitle) (le k : Int) (errs : List ValidationError),
      validateRecords fp lm mc ml mnd mxd subs le k [] = .ok errs →
      (∀ e ∈ errs, e.error_type = "Index Error" →
        ∃ (p : Nat) (hp : p < subs.length),
          (subs.get ⟨p, hp⟩).index ≠ k + (p : Int) ∧
          e = mkIndexError fp (lm (subs.get ⟨p, hp⟩).index) (subs.get ⟨p, hp⟩)
            (k + (p : Int))) ∧
      (∀ (p : Nat) (hp : p < subs.length),
        (subs.get ⟨p, hp⟩).index ≠ k + (p : Int) →
        mkIndexError fp (lm (subs.get ⟨p, hp⟩).index) (subs.get ⟨p, hp⟩)
          (k + (p : Int)) ∈ errs) := by
  intro subs
  induction subs with
  | nil =>
    intro le k errs h
    simp only [validateRecords] at h
    rw [Except.ok.injEq] at h
    constructor
    · intro e he
      rw [← h] at he
      exact absurd he (List.not_mem_nil e)
    · intro p hp
      exact absurd hp (by simp)
  | cons sub rest ih =>
    intro le k errs h
    simp only [validateRecords] at h
    cases hcr : checkRecord fp lm mc ml mnd mxd le k sub with
    | error e0 =>
      rw [hcr] at h
      exact Except.noConfusion (show Except.error e0 = Except.ok errs from h)
    | ok r =>
      rw [hcr] at h
      replace h : validateRecords fp lm mc ml mnd mxd rest sub.«end» (k + 1)
          ([] ++ r) = .ok errs := h
      rw [validateRecords_acc] at h
      cases hrest : validateRecords fp lm mc ml mnd mxd rest sub.«end» (k + 1) [] with
      | error e0 => rw [hrest] at h; exact Except.noConfusion h
      | ok t =>
        rw [hrest] at h
        rw [Except.ok.injEq] at h
        simp only [List.nil_append] at h
        obtain ⟨ihs, ihc⟩ := ih sub.«end» (k + 1) t hrest
        constructor
        · intro e he htype
          rw [← h] at he
          rcases List.mem_append.mp he with her | het
          · obtain ⟨hne, rfl⟩ := (checkRecord_indexErrors hcr).1 e her htype
            refine ⟨0, by simp, ?_, ?_⟩
            · simpa using hne
            · norm_num
          · obtain ⟨p, hp, hne, heq⟩ := ihs e het htype
            refine ⟨p + 1, by simpa using Nat.succ_lt_succ hp, ?_, ?_⟩
            · simpa [add_assoc, add_comm, add_left_comm] using hne
            · simpa [add_assoc, add_comm, add_left_comm] using heq
        · intro p hp hne
          rw [← h]
          match p with
          | 0 =>
            have hne' : sub.index ≠ k := by simpa using hne
            have := (checkRecord_indexErrors hcr).2 hne'
            refine List.mem_append_left _ ?_
            simpa using this
          | p' + 1 =>
            have hp' : p' < rest.length := Nat.lt_of_succ_lt_succ hp
            have hne' : (rest.get ⟨p', hp'⟩).index ≠ k + 1 + (p' : Int) := by
              simpa [add_assoc, add_comm, add_left_comm] using hne
            have := ihc p' hp' hne'
            refine List.mem_append_right _ ?_
            simpa [add_assoc, add_comm, add_left_comm] using this

/-- C8: every Index Error returned by the record loop (started, as in the
source, at expected index 1) compares the record at position `p` against
the expected value `p + 1`, which advances by exactly 1 per record
regardless of mismatches; its message states both the expected and found
values and the diagnostic's record index and line-map lookup use the found
index (all of which is fixed by `mkIndexError`). -/
theorem index_continuity_c8 (file_path : String) (lineMap : Int → Option Nat)
    (mc ml mnd mxd : Int) (subs : List Subtitle) (errs : List ValidationError)
    (hok : validateRecords file_path lineMap mc ml mnd mxd subs 0 1 [] = .ok errs) :
    (∀ e ∈ errs, e.error_type = "Index Error" →
      ∃ (p : Nat) (hp : p < subs.length),
        (subs.get ⟨p, hp⟩).index ≠ (p : Int) + 1 ∧
        e = mkIndexError file_path (lineMap (subs.get ⟨p, hp⟩).index)
          (subs.get ⟨p, hp⟩) ((p : Int) + 1)) ∧
    (∀ (p : Nat) (hp : p < subs.length),
      (subs.get ⟨p, hp⟩).index ≠ (p : Int) + 1 →
      mkIndexError file_path (lineMap (subs.get ⟨p, hp⟩).index)
        (subs.get ⟨p, hp⟩) ((p : Int) + 1) ∈ errs) := by
  obtain ⟨hs, hc⟩ := validateRecords_indexChar file_path lineMap mc ml mnd mxd
    subs 0 1 errs hok
  constructor
  · intro e he htype
    obtain ⟨p, hp, hne, heq⟩ := hs e he htype
    exact ⟨p, hp, by simpa [add_comm] using hne, by simpa [add_comm] using heq⟩
  · intro p hp hne
    have := hc p hp (by simpa [add_comm] using hne)
    simpa [add_comm] using this

/-- Witness for C8: the single record `⟨3, 0, 1000, "a"⟩` yields exactly
the Index Error "Expected index 1, found 3." -/
theorem index_continuity_c8_witness :
    mkIndexError "w.srt" none ⟨3, 0, 1000, "a"⟩ 1 ∈
      [mkIndexError "w.srt" none ⟨3, 0, 1000, "a"⟩ 1] :=
  (index_continuity_c8 "w.srt" (fun _ => none) 42 2 500 7000
      [⟨3, 0, 1000, "a"⟩] [mkIndexError "w.srt" none ⟨3, 0, 1000, "a"⟩ 1]
      (by decide)).2 0 (by decide) (by decide)

/-! ## Claims C7 and C9: the pre-scan and its halting behaviour -/

/-- A string whose characters are all whitespace strips to nothing. -/
theorem pyStripList_eq_nil_iff (l : List Char) :
    pyStripList l = [] ↔ ∀ c ∈ l, pyIsSpace c = true := by
  unfold pyStripList
  rw [List.rdropWhile_eq_nil_iff]
  constructor
  · intro h c hc
    rw [← List.takeWhile_append_dropWhile (p := pyIsSpace) (l := l)] at hc
    rcases List.mem_append.mp hc with hc | hc
    · exact List.mem_takeWhile_imp hc
    · exact h c hc
  · intro h x hx
    refine h x ?_
    rw [← List.takeWhile_append_dropWhile (p := pyIsSpace) (l := l)]
    exact List.mem_append_right _ hx

/-- Every character of a line produced by `splitlines` comes from the
input (or from the accumulator). -/
theorem pySplitlinesAux_chars :
    ∀ (l acc out : List Char), out ∈ pySplitlinesAux l acc →
      ∀ c ∈ out, c ∈ l ∨ c ∈ acc := by
  intro l acc
  induction l, acc using pySplitlinesAux.induct with
  | case1 acc hacc =>
    intro out hout c hc
    rw [pySplitlinesAux.eq_1, if_pos hacc] at hout
    exact absurd hout (List.not_mem_nil out)
  | case2 acc hacc =>
    intro out hout c hc
    rw [pySplitlinesAux.eq_1, if_neg hacc] at hout
    rw [List.mem_singleton] at hout
    subst hout
    right
    exact (List.mem_reverse).mp hc
  | case3 rest acc ih =>
    intro out hout c hc
    rw [pySplitlinesAux.eq_2] at hout
    rcases List.mem_cons.mp hout with rfl | hout
    · right; exact (List.mem_reverse).mp hc
    · rcases ih out hout c hc with h | h
      · left; exact List.mem_cons_of_mem _ (List.mem_cons_of_mem _ h)
      · exact absurd h (List.not_mem_nil c)
  | case4 c0 rest acc hne hbr ih =>
    intro out hout c hc
    rw [pySplitlinesAux.eq_3 _ _ _ hne, if_pos hbr] at hout
    rcases List.mem_cons.mp hout with rfl | hout
    · right; exact (List.mem_reverse).mp hc
    · rcases ih out hout c hc with h | h
      · left; exact List.mem_cons_of_mem _ h
      · exact absurd h (List.not_mem_nil c)
  | case5 c0 rest acc hne hbr ih =>
    intro out hout c hc
    rw [pySplitlinesAux.eq_3 _ _ _ hne, if_neg hbr] at hout
    rcases ih out hout c hc with h | h
    · left; exact List.mem_cons_of_mem _ h
    · rcases List.mem_cons.mp h with rfl | h
      · left; exact List.mem_cons_self _ _
      · right; exact h

/-- Characters of split lines are characters of the whole text. -/
theorem pySplitlines_chars (s : String) :
    ∀ line ∈ pySplitlines s, ∀ c ∈ line.toList, c ∈ s.toList := by
  intro line hline c hc
  unfold pySplitlines at hline
  rw [List.mem_map] at hline
  obtain ⟨lc, hlc, rfl⟩ := hline
  rcases pySplitlinesAux_chars s.toList [] lc hlc c hc with h | h
  · exact h
  · exact absurd h (List.not_mem_nil c)

/-- If the whole text strips to nothing, so does every one of its lines. -/
theorem strip_empty_lines (content : String)
    (h : (pyStrip content).toList = []) :
    ∀ line ∈ pySplitlines content, (pyStrip line).toList = [] := by
  intro line hline
  have hws : ∀ c ∈ content.toList, pyIsSpace c = true :=
    (pyStripList_eq_nil_iff content.toList).mp h
  exact (pyStripList_eq_nil_iff line.toList).mpr
    (fun c hc => hws c (pySplitlines_chars content line hline c hc))

/-- A line that strips to nothing leaves a block-less scanner state
untouched. -/
theorem scanLine_ws (fp : String) (st : ScanState) (n : Nat) (line : String)
    (hs : (pyStrip line).toList = []) (hb : st.in_subtitle_block = false) :
    scanLine fp st n line = st := by
  have h1 : isIndexLine (pyStrip line) = false := by
    unfold isIndexLine
    rw [hs]
    decide
  have h2 : hasArrow (pyStrip line) = false := by
    unfold hasArrow
    rw [hs]
    decide
  simp [scanLine, h1, h2, hb, hs]

/-- The pre-scan of whitespace-only lines never opens a block and never
reports anything. -/
theorem preScanAux_ws (fp : String) :
    ∀ (lines : List String) (n : Nat) (st : ScanState),
      (∀ line ∈ lines, (pyStrip line).toList = []) →
      st.in_subtitle_block = false → preScanAux fp lines n st = st := by
  intro lines
  induction lines with
  | nil => intro n st _ _; rfl
  | cons line rest ih =>
    intro n st hws hb
    simp only [preScanAux]
    rw [scanLine_ws fp st n line (hws line (List.mem_cons_self _ _)) hb]
    exact ih (n + 1) st (fun l hl => hws l (List.mem_cons_of_mem _ hl)) hb

/-- If the pre-scan reported anything, the file is not whitespace-only. -/
theorem preScan_errors_strip (fp content : String)
    (hne : (preScan fp (pySplitlines content)).errors ≠ []) :
    ¬(pyStrip content).toList.isEmpty = true := by
  intro hempty
  have h0 : (pyStrip content).toList = [] := by
    simpa using hempty
  have := preScanAux_ws fp (pySplitlines content) 1 initScan
    (strip_empty_lines content h0) rfl
  rw [preScan, this] at hne
  exact hne rfl

/-- The scanner invariant: a block in progress implies a subtitle was
found and a candidate index is recorded, and any reported error implies a
subtitle was found. -/
def ScanInv (st : ScanState) : Prop :=
  (st.in_subtitle_block = true →
    st.found_subs = true ∧ st.current_index.isSome = true) ∧
  (st.errors ≠ [] → st.found_subs = true)

/-- One scanner step preserves the invariant. -/
theorem scanLine_inv (fp : String) {st : ScanState} (n : Nat) (line : String)
    (h : ScanInv st) : ScanInv (scanLine fp st n line) := by
  obtain ⟨hblk, herr⟩ := h
  unfold ScanInv
  simp only [scanLine]
  split_ifs with h1 h2 h3 h4
  · exact ⟨fun _ => ⟨rfl, rfl⟩, fun _ => rfl⟩
  · simp only [Bool.and_eq_true] at h2
    obtain ⟨⟨-, hb⟩, -⟩ := h2
    refine ⟨fun _ => hblk hb, fun _ => (hblk hb).1⟩
  · simp only [Bool.and_eq_true] at h2
    obtain ⟨⟨-, hb⟩, -⟩ := h2
    exact ⟨fun _ => hblk hb, fun he => herr he⟩
  · exact ⟨fun hc => absurd hc (by simp), fun he => herr he⟩
  · exact ⟨hblk, herr⟩

/-- The whole pre-scan preserves the invariant. -/
theorem preScanAux_inv (fp : String) :
    ∀ (lines : List String) (n : Nat) (st : ScanState),
      ScanInv st → ScanInv (preScanAux fp lines n st) := by
  intro lines
  induction lines with
  | nil => intro n st h; exact h
  | cons line rest ih =>
    intro n st h
    exact ih (n + 1) _ (scanLine_inv fp n line h)

/-- What one scanner step does to the error list: it appends exactly one
Timecode Format Error when `scanEmitsError` holds and nothing otherwise. -/
theorem scanLine_errors (fp : String) (st : ScanState) (n : Nat) (line : String) :
    (scanLine fp st n line).errors =
      st.errors ++ (if scanEmitsError st line = true then
        [mkTimecodeFormatError fp st.current_index n line] else []) := by
  simp only [scanLine, scanEmitsError]
  split_ifs with h1 h2 h3 h4 h5 h6 h7 <;>
    simp_all [Bool.and_eq_true, Bool.not_eq_true']

/-- The pre-scan's error list is the accumulated `scanErrorsSpec`. -/
theorem preScanAux_errors (fp : String) :
    ∀ (lines : List String) (n : Nat) (st : ScanState),
      (preScanAux fp lines n st).errors = st.errors ++ scanErrorsSpec fp lines n st := by
  intro lines
  induction lines with
  | nil => intro n st; simp [preScanAux, scanErrorsSpec]
  | cons line rest ih =>
    intro n st
    simp only [preScanAux, scanErrorsSpec]
    rw [ih (n + 1) (scanLine fp st n line), scanLine_errors]
    rw [List.append_assoc]

/-- Every error of `scanErrorsSpec` is the Timecode Format Error of the
line at some position `j`, emitted in the state the scanner reached just
before that line. -/
theorem scanErrorsSpec_mem (fp : String) :
    ∀ (lines : List String) (n : Nat) (st : ScanState),
      ∀ e ∈ scanErrorsSpec fp lines n st,
        ∃ (j : Nat) (hj : j < lines.length),
          e = mkTimecodeFormatError fp
            (preScanAux fp (lines.take j) n st).current_index (n + j)
            (lines.get ⟨j, hj⟩) ∧
          scanEmitsError (preScanAux fp (lines.take j) n st)
            (lines.get ⟨j, hj⟩) = true := by
  intro lines
  induction lines with
  | nil => intro n st e he; simp [scanErrorsSpec] at he
  | cons line rest ih =>
    intro n st e he
    simp only [scanErrorsSpec] at he
    rcases List.mem_append.mp he with he | he
    · obtain ⟨hcond, rfl⟩ := mem_ite_singleton he
      exact ⟨0, by simp, by simp [preScanAux], by simpa [preScanAux] using hcond⟩
    · obtain ⟨j, hj, heq, hcond⟩ := ih (n + 1) (scanLine fp st n line) e he
      refine ⟨j + 1, Nat.succ_lt_succ hj, ?_, ?_⟩
      · simpa [List.take_succ_cons, preScanAux, Nat.add_assoc, Nat.add_comm,
          Nat.add_left_comm] using heq
      · simpa [List.take_succ_cons, preScanAux] using hcond

/-- C7: whenever the pre-scan finds any strict-grammar violation, full
validation returns exactly the pre-scan diagnostics (independently of the
parse outcome — no parsing or rule checking happens), the diagnostics are
exactly one per offending line in scan order (`scanErrorsSpec`), and each
carries category Timecode Format Error, a present candidate index, the
offending line's 1-based number, and that line's raw text as excerpt. -/
theorem prescan_halts_c7 (file_path content : String)
    (parse_result : Except String (List Subtitle)) (mc ml mnd mxd : Int)
    (hne : (preScan file_path (pySplitlines content)).errors ≠ []) :
    validate_srt_content file_path content parse_result mc ml mnd mxd =
      .ok ((preScan file_path (pySplitlines content)).errors) ∧
    (preScan file_path (pySplitlines content)).errors =
      scanErrorsSpec file_path (pySplitlines content) 1 initScan ∧
    ∀ e ∈ (preScan file_path (pySplitlines content)).errors,
      e.error_type = "Timecode Format Error" ∧
      e.subtitle_index.isSome = true ∧
      ∃ (i : Nat) (hi : i < (pySplitlines content).length),
        e.line_number = some (i + 1) ∧
        e.content = some ((pySplitlines content).get ⟨i, hi⟩) ∧
        hasArrow (pyStrip ((pySplitlines content).get ⟨i, hi⟩)) = true ∧
        matchesTimecodePattern (pyStrip ((pySplitlines content).get ⟨i, hi⟩)) = false := by
  have hspec : (preScan file_path (pySplitlines content)).errors =
      scanErrorsSpec file_path (pySplitlines content) 1 initScan := by
    rw [preScan, preScanAux_errors]
    simp [initScan]
  have hinv : ScanInv (preScan file_path (pySplitlines content)) :=
    preScanAux_inv file_path (pySplitlines content) 1 initScan
      ⟨fun hc => absurd hc (by simp [initScan]), fun he => absurd rfl he⟩
  have hfound : (preScan file_path (pySplitlines content)).found_subs = true :=
    hinv.2 hne
  have hmem : ∀ e ∈ (preScan file_path (pySplitlines content)).errors,
      e.error_type = "Timecode Format Error" ∧
      e.subtitle_index.isSome = true ∧
      ∃ (i : Nat) (hi : i < (pySplitlines content).length),
        e.line_number = some (i + 1) ∧
        e.content = some ((pySplitlines content).get ⟨i, hi⟩) ∧
        hasArrow (pyStrip ((pySplitlines content).get ⟨i, hi⟩)) = true ∧
        matchesTimecodePattern (pyStrip ((pySplitlines content).get ⟨i, hi⟩)) = false := by
    intro e he
    rw [hspec] at he
    obtain ⟨j, hj, rfl, hcond⟩ :=
      scanErrorsSpec_mem file_path (pySplitlines content) 1 initScan e he
    have hinvj : ScanInv (preScanAux file_path ((pySplitlines content).take j) 1 initScan) :=
      preScanAux_inv file_path _ 1 initScan
        ⟨fun hc => absurd hc (by simp [initScan]), fun he' => absurd rfl he'⟩
    simp only [scanEmitsError, Bool.and_eq_true, Bool.not_eq_true'] at hcond
    obtain ⟨⟨⟨harr, hblk⟩, -⟩, hmatch⟩ := hcond
    refine ⟨rfl, (hinvj.1 hblk).2, j, hj, ?_, rfl, harr, hmatch⟩
    simp [mkTimecodeFormatError, Nat.add_comm]
  refine ⟨?_, hspec, hmem⟩
  have hany : (preScan file_path (pySplitlines content)).errors.any
      (fun e => e.error_type == "Timecode Format Error") = true := by
    cases herr : (preScan file_path (pySplitlines content)).errors with
    | nil => exact absurd herr hne
    | cons e es =>
      have htype := (hmem e (by rw [herr]; exact List.mem_cons_self _ _)).1
      simp [List.any_cons, htype]
  simp only [validate_srt_content]
  rw [if_neg (preScan_errors_strip file_path content hne)]
  rw [if_neg (by simp [hfound])]
  rw [if_pos hany]

/-- The bad-timecode fixture of the repository's tests: missing digit
padding on the start timestamp. -/
def badTimecodeContent : String :=
  "1\n00:00:01 --> 00:00:03,000\nBad timecode.\n"

/-- Witness for C7 at the bad-timecode fixture: validation returns exactly
the pre-scan diagnostics. -/
theorem prescan_halts_c7_witness :
    validate_srt_content "test.srt" badTimecodeContent (.ok []) 42 2 1000 7000 =
      .ok ((preScan "test.srt" (pySplitlines badTimecodeContent)).errors) :=
  (prescan_halts_c7 "test.srt" badTimecodeContent (.ok []) 42 2 1000 7000
    (by decide)).1

/-- C9: an arrow-bearing line scanned while no block is open, or after the
block's first arrow-bearing line, is never checked against the timecode
grammar: no Timecode Format Error carries its line number. -/
theorem arrow_outside_block_silent_c9 (file_path : String) (lines : List String)
    (i : Nat) (hi : i < lines.length)
    (harrow : hasArrow (pyStrip (lines.get ⟨i, hi⟩)) = true)
    (hstate : (preScanAux file_path (lines.take i) 1 initScan).in_subtitle_block = false ∨
      (preScanAux file_path (lines.take i) 1 initScan).current_timecode_line ≠ none) :
    ∀ e ∈ (preScan file_path lines).errors, e.line_number ≠ some (i + 1) := by
  intro e he hln
  have hspec : (preScan file_path lines).errors =
      scanErrorsSpec file_path lines 1 initScan := by
    rw [preScan, preScanAux_errors]
    simp [initScan]
  rw [hspec] at he
  obtain ⟨j, hj, rfl, hcond⟩ := scanErrorsSpec_mem file_path lines 1 initScan e he
  have hji : j = i := by
    simp only [mkTimecodeFormatError, Option.some.injEq] at hln
    omega
  subst hji
  simp only [scanEmitsError, Bool.and_eq_true, Bool.not_eq_true'] at hcond
  obtain ⟨⟨⟨-, hblk⟩, htc⟩, -⟩ := hcond
  rcases hstate with hstate | hstate
  · rw [hstate] at hblk
    exact Bool.noConfusion hblk
  · rw [Option.isNone_iff_eq_none] at htc
    exact hstate htc

/-- The C9 witness file: a valid timecode line followed by a second
arrow-bearing line inside the same block. -/
def c9Lines : List String := ["1", "bad --> bad", "worse --> worse"]

/-- Witness for C9 on `c9Lines` at position 2 (the block's timecode slot
is already taken): the one reported error belongs to line 2, not line 3. -/
theorem arrow_outside_block_silent_c9_witness :
    (mkTimecodeFormatError "f.srt" (some 1) 2 "bad --> bad").line_number ≠ some 3 :=
  arrow_outside_block_silent_c9 "f.srt" c9Lines 2 (by decide) (by decide)
    (Or.inr (by decide))
    (mkTimecodeFormatError "f.srt" (some 1) 2 "bad --> bad") (by decide)

/-! ## Claim C5: fixer idempotence

The only non-trivial part is that the text normalization is idempotent:
once carriage returns are gone, newline runs are capped at two, and the
surrounding whitespace is stripped, running the same pipeline again
changes nothing. -/

/-- Three consecutive newlines occur somewhere in the list. -/
def hasTriple : List Char → Bool
  | a :: b :: c :: rest =>
    (a == '\n' && b == '\n' && c == '\n') || hasTriple (b :: c :: rest)
  | _ => false

/-- A triple survives prepending one character. -/
theorem hasTriple_cons_of {m : List Char} (a : Char) (h : hasTriple m = true) :
    hasTriple (a :: m) = true := by
  match m with
  | [] => simp [hasTriple] at h
  | [x] => simp [hasTriple] at h
  | x :: y :: r =>
    show ((a == '\n' && x == '\n' && y == '\n') || hasTriple (x :: y :: r)) = true
    rw [h]
    simp

/-- A triple survives prepending a list. -/
theorem hasTriple_append_left {t : List Char} (s : List Char)
    (h : hasTriple t = true) : hasTriple (s ++ t) = true := by
  induction s with
  | nil => simpa using h
  | cons a s ih => exact hasTriple_cons_of a ih

/-- A triple survives appending a list. -/
theorem hasTriple_append_right : ∀ {s : List Char} (t : List Char),
    hasTriple s = true → hasTriple (s ++ t) = true
  | [], t, h => by simp [hasTriple] at h
  | [a], t, h => by simp [hasTriple] at h
  | [a, b], t, h => by simp [hasTriple] at h
  | a :: b :: c :: rest, t, h => by
    rw [show hasTriple (a :: b :: c :: rest) =
        ((a == '\n' && b == '\n' && c == '\n') || hasTriple (b :: c :: rest)) from rfl,
      Bool.or_eq_true] at h
    show ((a == '\n' && b == '\n' && c == '\n') ||
      hasTriple (b :: c :: (rest ++ t))) = true
    rw [Bool.or_eq_true]
    rcases h with h | h
    · exact Or.inl h
    · exact Or.inr (hasTriple_append_right t h)

/-- Three or more newlines in a row are a triple. -/
theorem hasTriple_replicate {n : Nat} (h : 3 ≤ n) :
    hasTriple (List.replicate n '\n') = true := by
  match n, h with
  | m + 3, _ =>
    show (('\n' == '\n' && '\n' == '\n' && '\n' == '\n') ||
      hasTriple ('\n' :: '\n' :: List.replicate m '\n')) = true
    simp

/-- Prepending a non-newline to a triple-free list keeps it triple-free. -/
theorem hasTriple_cons_false {c : Char} {t : List Char} (hc : c ≠ '\n')
    (ht : hasTriple t = false) : hasTriple (c :: t) = false := by
  match t with
  | [] => rfl
  | [x] => rfl
  | x :: y :: r =>
    show ((c == '\n' && x == '\n' && y == '\n') || hasTriple (x :: y :: r)) = false
    rw [ht]
    simp [hc]

/-- One newline before a non-newline keeps a triple-free list triple-free. -/
theorem hasTriple_one_nl {c : Char} {t : List Char} (hc : c ≠ '\n')
    (ht : hasTriple (c :: t) = false) : hasTriple ('\n' :: c :: t) = false := by
  match t with
  | [] => rfl
  | x :: r =>
    show (('\n' == '\n' && c == '\n' && x == '\n') || hasTriple (c :: x :: r)) = false
    rw [ht]
    simp [hc]

/-- Two newlines before a non-newline keep a triple-free list triple-free. -/
theorem hasTriple_two_nl {c : Char} {t : List Char} (hc : c ≠ '\n')
    (ht : hasTriple (c :: t) = false) :
    hasTriple ('\n' :: '\n' :: c :: t) = false := by
  show (('\n' == '\n' && '\n' == '\n' && c == '\n') ||
    hasTriple ('\n' :: c :: t)) = false
  rw [hasTriple_one_nl hc ht]
  simp [hc]

/-- The output of the newline-collapsing pass never contains three
consecutive newlines. -/
theorem collapseNLAux_noTriple : ∀ (l : List Char) (n : Nat),
    hasTriple (collapseNLAux l n) = false
  | [], n => by
    unfold collapseNLAux emitNLRun
    split
    · rfl
    · rename_i h3
      have hn : n ≤ 2 := by omega
      match n, hn with
      | 0, _ => rfl
      | 1, _ => rfl
      | 2, _ => rfl
  | c :: rest, n => by
    unfold collapseNLAux
    split
    · exact collapseNLAux_noTriple rest (n + 1)
    · rename_i hc
      have hct : hasTriple (c :: collapseNLAux rest 0) = false :=
        hasTriple_cons_false hc (collapseNLAux_noTriple rest 0)
      unfold emitNLRun
      split
      · exact hasTriple_two_nl hc hct
      · rename_i h3
        have hn : n ≤ 2 := by omega
        match n, hn with
        | 0, _ => exact hct
        | 1, _ => exact hasTriple_one_nl hc hct
        | 2, _ => exact hasTriple_two_nl hc hct

/-- On a triple-free input (including the pending run) the collapsing pass
is the identity. -/
theorem collapseNLAux_eq_self : ∀ (l : List Char) (n : Nat),
    hasTriple (List.replicate n '\n' ++ l) = false →
    collapseNLAux l n = List.replicate n '\n' ++ l
  | [], n, h => by
    unfold collapseNLAux emitNLRun
    split
    · rename_i h3
      rw [List.append_nil] at h
      have := hasTriple_replicate h3
      rw [h] at this
      exact Bool.noConfusion this
    · rw [List.append_nil]
  | c :: rest, n, h => by
    unfold collapseNLAux
    split
    · rename_i hc
      subst hc
      have heq : List.replicate (n + 1) '\n' ++ rest =
          List.replicate n '\n' ++ '\n' :: rest := by
        rw [List.replicate_succ', List.append_assoc, List.singleton_append]
      rw [collapseNLAux_eq_self rest (n + 1) (by rw [heq]; exact h), heq]
    · rename_i hc
      have hn : n ≤ 2 := by
        by_contra h3
        have := hasTriple_append_right (c :: rest)
          (hasTriple_replicate (by omega : 3 ≤ n))
        rw [h] at this
        exact Bool.noConfusion this
      have hrest : hasTriple rest = false := by
        cases hr : hasTriple rest
        · rfl
        · have h1 := hasTriple_append_left (List.replicate n '\n' ++ [c]) hr
          rw [List.append_assoc, List.singleton_append, h] at h1
          exact Bool.noConfusion h1
      have h0 : collapseNLAux rest 0 = rest := collapseNLAux_eq_self rest 0 hrest
      have he : emitNLRun n = List.replicate n '\n' := by
        unfold emitNLRun
        rw [if_neg (by omega)]
      rw [h0, he]

/-- Stripping whitespace from the ends cannot create a triple. -/
theorem pyStripList_noTriple {l : List Char} (h : hasTriple l = false) :
    hasTriple (pyStripList l) = false := by
  cases hs : hasTriple (pyStripList l)
  · rfl
  · exfalso
    obtain ⟨t, ht⟩ := List.rdropWhile_prefix (p := pyIsSpace)
      (l := l.dropWhile pyIsSpace)
    have h1 : hasTriple (l.dropWhile pyIsSpace) = true := by
      rw [← ht]
      exact hasTriple_append_right t hs
    obtain ⟨s, hsfx⟩ := List.dropWhile_suffix (l := l) pyIsSpace
    have h2 : hasTriple l = true := by
      rw [← hsfx]
      exact hasTriple_append_left s h1
    rw [h] at h2
    exact Bool.noConfusion h2

/-- Stripping both ends is idempotent. -/
theorem pyStripList_idem (l : List Char) :
    pyStripList (pyStripList l) = pyStripList l := by
  unfold pyStripList
  have h1 : ((l.dropWhile pyIsSpace).rdropWhile pyIsSpace).dropWhile pyIsSpace =
      (l.dropWhile pyIsSpace).rdropWhile pyIsSpace := by
    rw [List.dropWhile_eq_self_iff]
    intro hl
    have hpre := List.rdropWhile_prefix (p := pyIsSpace) (l := l.dropWhile pyIsSpace)
    rw [hpre.get_eq hl]
    have hd : (l.dropWhile pyIsSpace).dropWhile pyIsSpace = l.dropWhile pyIsSpace :=
      List.dropWhile_idempotent pyIsSpace l
    rw [List.dropWhile_eq_self_iff] at hd
    exact hd _
  rw [h1, List.rdropWhile_idempotent]

/-- Each character surviving the collapse pass was in the input or is a
newline. -/
theorem collapseNLAux_mem : ∀ {x : Char} (l : List Char) (n : Nat),
    x ∈ collapseNLAux l n → x ∈ l ∨ x = '\n'
  | x, [], n, h => by
    unfold collapseNLAux emitNLRun at h
    split at h
    · right; simpa using h
    · right; exact List.eq_of_mem_replicate h
  | x, c :: rest, n, h => by
    unfold collapseNLAux at h
    split at h
    · rcases collapseNLAux_mem rest (n + 1) h with h' | h'
      · left; exact List.mem_cons_of_mem _ h'
      · right; exact h'
    · rcases List.mem_append.mp h with h' | h'
      · right
        unfold emitNLRun at h'
        split at h'
        · simpa using h'
        · exact List.eq_of_mem_replicate h'
      · rcases List.mem_cons.mp h' with rfl | h'
        · left; exact List.mem_cons_self _ _
        · rcases collapseNLAux_mem rest 0 h' with h'' | h''
          · left; exact List.mem_cons_of_mem _ h''
          · right; exact h''

/-- Carriage returns never survive `removeCR`. -/
theorem removeCR_not_mem (l : List Char) : '\r' ∉ removeCR l := by
  intro h
  rw [removeCR, List.mem_filter] at h
  simp at h

/-- `removeCR` is the identity on carriage-return-free text. -/
theorem removeCR_eq_self {l : List Char} (h : '\r' ∉ l) : removeCR l = l := by
  induction l with
  | nil => rfl
  | cons c rest ih =>
    rw [removeCR, List.filter_cons]
    split
    · have : removeCR rest = rest := ih (fun hm => h (List.mem_cons_of_mem _ hm))
      rw [removeCR] at this
      rw [this]
    · rename_i hc
      exfalso
      apply h
      simp at hc
      rw [hc]
      exact List.mem_cons_self _ _

/-- Stripping keeps only characters of the input. -/
theorem pyStripList_subset (l : List Char) : pyStripList l ⊆ l := by
  intro x hx
  unfold pyStripList at hx
  obtain ⟨t, ht⟩ := List.rdropWhile_prefix (p := pyIsSpace)
    (l := l.dropWhile pyIsSpace)
  obtain ⟨s, hsfx⟩ := List.dropWhile_suffix (l := l) pyIsSpace
  have hx1 : x ∈ l.dropWhile pyIsSpace := by
    rw [← ht]
    exact List.mem_append_left _ hx
  rw [← hsfx]
  exact List.mem_append_right _ hx1

/-- Normalized content contains no carriage return. -/
theorem pyNormalizeContent_no_cr (c : String) :
    '\r' ∉ (pyNormalizeContent c).toList := by
  intro h
  have h1 : '\r' ∈ collapseNL (removeCR c.toList) := pyStripList_subset _ h
  rcases collapseNLAux_mem _ 0 h1 with h2 | h2
  · exact removeCR_not_mem _ h2
  · exact absurd h2 (by decide)

/-- Normalized content contains no triple newline. -/
theorem pyNormalizeContent_noTriple (c : String) :
    hasTriple (pyNormalizeContent c).toList = false :=
  pyStripList_noTriple (collapseNLAux_noTriple _ 0)

/-- The fixer's text normalization is idempotent. -/
theorem pyNormalizeContent_idem (c : String) :
    pyNormalizeContent (pyNormalizeContent c) = pyNormalizeContent c := by
  have h1 : removeCR (pyNormalizeContent c).toList = (pyNormalizeContent c).toList :=
    removeCR_eq_self (pyNormalizeContent_no_cr c)
  have h2 : collapseNL (pyNormalizeContent c).toList = (pyNormalizeContent c).toList :=
    collapseNLAux_eq_self (pyNormalizeContent c).toList 0 (pyNormalizeContent_noTriple c)
  show String.mk (pyStripList (collapseNL (removeCR (pyNormalizeContent c).toList))) =
    pyNormalizeContent c
  rw [h1, h2]
  show String.mk (pyStripList (pyStripList (collapseNL (removeCR c.toList)))) =
    pyNormalizeContent c
  rw [pyStripList_idem]
  rfl

/-- The records at positions `n, n+1, …` are numbered `n+1, n+2, …`. -/
def indexedFrom : Nat → List Subtitle → Prop
  | _, [] => True
  | n, s :: rest => s.index = (n : Int) + 1 ∧ indexedFrom (n + 1) rest

/-- Every record leaving the fixer's pass has normalized content. -/
theorem fixLoop_contents (subs : List Subtitle) :
    ∀ (le : Int) (i : Nat) (fixes : List String),
      ∀ s ∈ (fixLoop subs le i fixes).1, pyNormalizeContent s.content = s.content := by
  induction subs with
  | nil => intro le i fixes s hs; simp [fixLoop] at hs
  | cons sub rest ih =>
    intro le i fixes s hs
    simp only [fixLoop] at hs
    rcases List.mem_cons.mp hs with rfl | hs
    · dsimp only
      split_ifs with hne
      · exact pyNormalizeContent_idem sub.content
      · exact not_ne_iff.mp hne
    · exact ih _ _ _ s hs

/-- If the pass reports no renumbering need, the records were already
numbered by position. -/
theorem fixLoop_indexed (subs : List Subtitle) :
    ∀ (le : Int) (i : Nat) (fixes : List String),
      (fixLoop subs le i fixes).2.2 = false →
      indexedFrom i (fixLoop subs le i fixes).1 := by
  induction subs with
  | nil => intro le i fixes _; simp [fixLoop, indexedFrom]
  | cons sub rest ih =>
    intro le i fixes h
    simp only [fixLoop] at h ⊢
    rw [Bool.or_eq_false_iff] at h
    obtain ⟨h1, h2⟩ := h
    refine ⟨?_, ih _ _ _ h2⟩
    simpa using of_decide_eq_false h1

/-- Renumbering numbers the records by position. -/
theorem indexedFrom_reindexFrom : ∀ (l : List Subtitle) (n : Nat),
    indexedFrom n (reindexFrom n l)
  | [], _ => trivial
  | _ :: rest, n => ⟨rfl, indexedFrom_reindexFrom rest (n + 1)⟩

/-- Renumbering does not touch contents. -/
theorem reindexFrom_contents (l : List Subtitle)
    (hc : ∀ s ∈ l, pyNormalizeContent s.content = s.content) :
    ∀ (n : Nat), ∀ s ∈ reindexFrom n l, pyNormalizeContent s.content = s.content := by
  induction l with
  | nil => intro n s hs; simp [reindexFrom] at hs
  | cons t rest ih =>
    intro n s hs
    simp only [reindexFrom] at hs
    rcases List.mem_cons.mp hs with rfl | hs
    · exact hc t (List.mem_cons_self _ _)
    · exact ih (fun u hu => hc u (List.mem_cons_of_mem _ hu)) (n + 1) s hs

/-- On an already-fixed list the pass changes nothing and reports
nothing. -/
theorem fixLoop_noop : ∀ (l : List Subtitle) (le : Int) (i : Nat) (fixes : List String),
    timeOrdered le l → (∀ s ∈ l, pyNormalizeContent s.content = s.content) →
    indexedFrom i l → fixLoop l le i fixes = (l, fixes, false)
  | [], _, _, _, _, _, _ => rfl
  | s :: rest, le, i, fixes, hto, hc, hidx => by
    obtain ⟨h1, h2, h3⟩ := hto
    obtain ⟨hi, hrest⟩ := hidx
    have hcs := hc s (List.mem_cons_self _ _)
    have hn1 : ¬ s.start < le := not_lt.mpr h1
    have hn2 : ¬ s.«end» ≤ s.start := not_le.mpr h2
    have hn3 : ¬ pyNormalizeContent s.content ≠ s.content := not_ne_iff.mpr hcs
    have hn4 : decide (s.index ≠ (i : Int) + 1) = false :=
      decide_eq_false (not_not_intro hi)
    simp only [fixLoop, if_neg hn1, if_neg hn2, if_neg hn3, hn4]
    rw [fixLoop_noop rest s.«end» (i + 1) fixes h3
      (fun u hu => hc u (List.mem_cons_of_mem _ hu)) hrest]
    simp

/-- The fixer is the identity, with no reported categories, on a
time-ordered, content-normalized, position-numbered list. -/
theorem fix_srt_subtitles_noop (l : List Subtitle) (hto : timeOrdered 0 l)
    (hc : ∀ s ∈ l, pyNormalizeContent s.content = s.content)
    (hidx : indexedFrom 0 l) : fix_srt_subtitles l = (l, []) := by
  have hloop := fixLoop_noop l 0 0 [] hto hc hidx
  simp only [fix_srt_subtitles, hloop]
  rfl

/-- The contents of the fixer's output are normalized. -/
theorem fix_srt_subtitles_contents (subs : List Subtitle) :
    ∀ s ∈ (fix_srt_subtitles subs).1, pyNormalizeContent s.content = s.content := by
  simp only [fix_srt_subtitles]
  split
  · exact reindexFrom_contents _ (fixLoop_contents subs 0 0 []) 0
  · exact fixLoop_contents subs 0 0 []

/-- The fixer's output is numbered by position. -/
theorem fix_srt_subtitles_indexed (subs : List Subtitle) :
    indexedFrom 0 (fix_srt_subtitles subs).1 := by
  simp only [fix_srt_subtitles]
  split
  · exact indexedFrom_reindexFrom _ 0
  · rename_i hnr
    exact fixLoop_indexed subs 0 0 [] (by simpa using hnr)

/-- C5: the fixer is idempotent — running it on its own output reports an
empty fix-category list and returns the sequence unchanged. -/
theorem fix_idempotent_c5 (subs : List Subtitle) :
    fix_srt_subtitles (fix_srt_subtitles subs).1 = ((fix_srt_subtitles subs).1, []) :=
  fix_srt_subtitles_noop (fix_srt_subtitles subs).1
    (fix_srt_subtitles_timeOrdered subs)
    (fix_srt_subtitles_contents subs)
    (fix_srt_subtitles_indexed subs)

end SrtValidator
